import Mathlib

/-!
Shallow embedding of the whereabouts IP reconciler
(`src/pkg/reconciler/iploop.go`) and of the deallocation primitive it calls.

Reservations carry their IP in canonical string form (the Go code only ever
compares `IP.String()` values) and the owning pod reference.  `Pool.Update`
is abstracted by a boolean oracle so that store write failures can be
injected; a pass records every successful update call in order.
-/

namespace Whereabouts

/-- One claimed address within a pool: the fields of `types.IPReservation`
that the reconciler reads, the IP in its canonical string form and the
owning pod reference. -/
structure IPReservation where
  ip : String
  podRef : String
deriving DecidableEq

/-- A stored IP pool as the reconciler sees it: an identity (used by the
store) plus the reservation list returned by `Allocations()`. -/
structure Pool where
  id : Nat
  allocations : List IPReservation
deriving DecidableEq

/-- The `OrphanedIPReservations` structure of `pkg/reconciler/iploop.go`:
one pool paired with the subset of its reservations found orphaned. -/
structure OrphanedIPReservations where
  pool : Pool
  allocations : List IPReservation
deriving DecidableEq

/-- `ReconcileLooper.isPodAlive`: linear scan of the live pod-ref list for
an exact string match. -/
def isPodAlive (livePodRefs : List String) (podRef : String) : Bool :=
  livePodRefs.any (fun livePodRef => podRef == livePodRef)

/-- The orphan test applied inside `findOrphanedIPsPerPool`: the pod ref is
nonempty (empty refs are logged as anomalies and skipped) and not alive. -/
def isOrphan (livePodRefs : List String) (a : IPReservation) : Bool :=
  a.podRef != "" && !isPodAlive livePodRefs a.podRef

/-- `findOrphanedIPsPerPool`: for each pool collect the allocations whose
pod ref is nonempty and dead, and keep the pool only when that collection
is nonempty. -/
def findOrphanedIPsPerPool (livePodRefs : List String) (ipPools : List Pool) :
    List OrphanedIPReservations :=
  ipPools.filterMap (fun pool =>
    if 0 < (pool.allocations.filter (isOrphan livePodRefs)).length then
      some ⟨pool, pool.allocations.filter (isOrphan livePodRefs)⟩
    else none)

/-- The running range-loop index of `matchByPodRef`'s scan. -/
def matchByPodRefAux (idx : Nat) : List IPReservation → String → Int
  | [], _ => -1
  | v :: rest, podRef =>
    if v.podRef == podRef then Int.ofNat idx else matchByPodRefAux (idx + 1) rest podRef

/-- The `matchByPodRef` closure of `ReconcileIPPools`: index of the first
reservation whose pod ref equals `podRef`, else the sentinel `-1`. -/
def matchByPodRef (reservations : List IPReservation) (podRef : String) : Int :=
  matchByPodRefAux 0 reservations podRef

/-- Modelled from the spec: `allocate.IterateForDeallocation`, whose source
(pkg/allocate) is not under src/.  Per the Deallocation Primitive contract,
`matchingFunction` yields the index of the first reservation owned by
`podRef` or a not-found sentinel; on a match the primitive returns the input
list with exactly that element removed (relative order preserved) together
with the removed reservation, otherwise it fails with a not-found error. -/
def IterateForDeallocation (reservelist : List IPReservation) (podRef : String)
    (matchingFunction : List IPReservation → String → Int) :
    Except String (List IPReservation × IPReservation) :=
  if 0 ≤ matchingFunction reservelist podRef then
    match reservelist.get? (matchingFunction reservelist podRef).toNat with
    | some removed =>
      Except.ok (reservelist.eraseIdx (matchingFunction reservelist podRef).toNat, removed)
    | none => Except.error ("did not find a reserved IP for " ++ podRef)
  else
    Except.error ("did not find a reserved IP for " ++ podRef)

/-- `findOutPodRefsToDeallocateIPsFrom`: one deallocation target per orphaned
allocation, in scan order. -/
def findOutPodRefsToDeallocateIPsFrom (orphanedIP : OrphanedIPReservations) : List String :=
  orphanedIP.allocations.map (fun orphanedAllocation => orphanedAllocation.podRef)

/-- The inner loop of `ReconcileIPPools`: apply `IterateForDeallocation` with
`matchByPodRef` once per target pod ref, threading the shrinking reservation
list and stopping at the first error. -/
def deallocAll (podRefsToDeallocate : List String) (current : List IPReservation) :
    Except String (List IPReservation) :=
  match podRefsToDeallocate with
  | [] => Except.ok current
  | podRef :: rest =>
    match IterateForDeallocation current podRef matchByPodRef with
    | Except.ok (updated, _) => deallocAll rest updated
    | Except.error e => Except.error e

/-- `computeCleanedUpIPs`: the old reservations whose IP string does not
occur in the new list (the Go builds a ledger keyed by `IP.String()`). -/
def computeCleanedUpIPs (oldIPReservations newIPReservations : List IPReservation) :
    List IPReservation :=
  oldIPReservations.filter
    (fun reservation => !newIPReservations.any (fun n => n.ip == reservation.ip))

/-- The two error sources of `ReconcileIPPools`: a failed deallocation
(carrying the primitive's message) or a rejected `Pool.Update`. -/
inductive ReconcileError where
  | deallocFailed (msg : String)
  | updateFailed
deriving DecidableEq

/-- A successful `Pool.Update` call recorded during a pass: the pool written
and the reservation list committed to it. -/
structure UpdateCall where
  pool : Pool
  newAllocations : List IPReservation
deriving DecidableEq

/-- `ReconcileIPPools`, with `Pool.Update` abstracted as the oracle `updOk`
(`true` means the store accepts the write).  Returns the successful update
calls in order, the removal report (empty on error, as the Go returns `nil`),
and the error, if any.  On an error, pools updated earlier in the pass stay
committed and later pools are not processed. -/
def ReconcileIPPools (updOk : Pool → List IPReservation → Bool) :
    List OrphanedIPReservations →
      List UpdateCall × List IPReservation × Option ReconcileError
  | [] => ([], [], none)
  | orphanedIP :: rest =>
    match deallocAll (findOutPodRefsToDeallocateIPsFrom orphanedIP)
        orphanedIP.pool.allocations with
    | Except.error e => ([], [], some (ReconcileError.deallocFailed e))
    | Except.ok currentIPReservations =>
      if updOk orphanedIP.pool currentIPReservations then
        match ReconcileIPPools updOk rest with
        | (calls, cleaned, none) =>
          (⟨orphanedIP.pool, currentIPReservations⟩ :: calls,
           computeCleanedUpIPs orphanedIP.pool.allocations currentIPReservations ++ cleaned,
           none)
        | (calls, _, some e) =>
          (⟨orphanedIP.pool, currentIPReservations⟩ :: calls, [], some e)
      else
        ([], [], some ReconcileError.updateFailed)

/-- A full pass over a pool store: capture orphans (`findOrphanedIPsPerPool`,
as `NewReconcileLooper` does) and then reclaim them (`ReconcileIPPools`). -/
def reconcile (updOk : Pool → List IPReservation → Bool)
    (livePodRefs : List String) (ipPools : List Pool) :
    List UpdateCall × List IPReservation × Option ReconcileError :=
  ReconcileIPPools updOk (findOrphanedIPsPerPool livePodRefs ipPools)

/-- The oracle of a store that accepts every write. -/
def alwaysOk : Pool → List IPReservation → Bool := fun _ _ => true

/-- The pool store after the update calls of a pass are applied: each pool
that was written carries its committed list, the rest are unchanged. -/
def applyUpdates (ipPools : List Pool) (calls : List UpdateCall) : List Pool :=
  ipPools.map (fun pool =>
    match calls.find? (fun c => c.pool == pool) with
    | some c => ⟨pool.id, c.newAllocations⟩
    | none => pool)

/-! ### Characterisation of the match scan -/

/-- Proof support: the position of the first reservation owned by `p`, as an
option, used to characterise the sentinel-based `matchByPodRef`. -/
def firstMatchIdx (p : String) : List IPReservation → Option Nat
  | [] => none
  | v :: rest =>
    if v.podRef == p then some 0 else (firstMatchIdx p rest).map (fun i => i + 1)

theorem matchByPodRefAux_eq (p : String) :
    ∀ (l : List IPReservation) (k : Nat),
      matchByPodRefAux k l p =
        (firstMatchIdx p l).elim (-1) (fun i => Int.ofNat (k + i)) := by
  intro l
  induction l with
  | nil => intro k; rfl
  | cons v rest ih =>
    intro k
    by_cases h : (v.podRef == p) = true
    · simp [matchByPodRefAux, firstMatchIdx, h]
    · rw [Bool.not_eq_true] at h
      simp only [matchByPodRefAux, firstMatchIdx, h, Bool.false_eq_true, if_false]
      rw [ih (k + 1)]
      cases hfi : firstMatchIdx p rest with
      | none => simp
      | some i =>
        show Int.ofNat (k + 1 + i) = Int.ofNat (k + (i + 1))
        congr 1
        omega

theorem matchByPodRef_eq (l : List IPReservation) (p : String) :
    matchByPodRef l p = (firstMatchIdx p l).elim (-1) (fun i => Int.ofNat i) := by
  rw [matchByPodRef, matchByPodRefAux_eq]
  cases firstMatchIdx p l <;> simp

theorem firstMatchIdx_none_iff (p : String) :
    ∀ l : List IPReservation,
      firstMatchIdx p l = none ↔ ∀ r ∈ l, (r.podRef == p) = false := by
  intro l
  induction l with
  | nil => simp [firstMatchIdx]
  | cons v rest ih =>
    constructor
    · intro hn r hr
      by_cases h : (v.podRef == p) = true
      · rw [firstMatchIdx, if_pos h] at hn
        exact absurd hn (by simp)
      · rw [Bool.not_eq_true] at h
        rw [firstMatchIdx, if_neg (by simp [h])] at hn
        rcases List.mem_cons.1 hr with hv | hv
        · subst hv; exact h
        · exact ih.1 (Option.map_eq_none'.1 hn) r hv
    · intro hall
      have hv : (v.podRef == p) = false := hall v (List.mem_cons_self v rest)
      rw [firstMatchIdx, if_neg (by simp [hv]), Option.map_eq_none']
      exact ih.2 (fun r hr => hall r (List.mem_cons_of_mem _ hr))

theorem firstMatchIdx_get? (p : String) :
    ∀ (l : List IPReservation) (i : Nat), firstMatchIdx p l = some i →
      ∃ r, l.get? i = some r ∧ (r.podRef == p) = true := by
  intro l
  induction l with
  | nil => intro i h; simp [firstMatchIdx] at h
  | cons v rest ih =>
    intro i h
    by_cases hv : (v.podRef == p) = true
    · rw [firstMatchIdx, if_pos hv] at h
      cases h
      exact ⟨v, rfl, hv⟩
    · rw [Bool.not_eq_true] at hv
      rw [firstMatchIdx, if_neg (by simp [hv])] at h
      cases hfi : firstMatchIdx p rest with
      | none => rw [hfi, Option.map_none'] at h; exact Option.noConfusion h
      | some j =>
        rw [hfi] at h
        simp only [Option.map_some', Option.some.injEq] at h
        obtain ⟨r, hr, hrp⟩ := ih j hfi
        exact ⟨r, by rw [← h]; simpa using hr, hrp⟩

theorem firstMatchIdx_before (p : String) :
    ∀ (l : List IPReservation) (i : Nat), firstMatchIdx p l = some i →
      ∀ j, j < i → ∀ r, l.get? j = some r → (r.podRef == p) = false := by
  intro l
  induction l with
  | nil => intro i h; simp [firstMatchIdx] at h
  | cons v rest ih =>
    intro i h j hj r hr
    by_cases hv : (v.podRef == p) = true
    · rw [firstMatchIdx, if_pos hv] at h
      cases h
      omega
    · rw [Bool.not_eq_true] at hv
      rw [firstMatchIdx, if_neg (by simp [hv])] at h
      cases hfi : firstMatchIdx p rest with
      | none => rw [hfi, Option.map_none'] at h; exact Option.noConfusion h
      | some m =>
        rw [hfi] at h
        simp only [Option.map_some', Option.some.injEq] at h
        cases j with
        | zero =>
          cases hr
          exact hv
        | succ j' =>
          rw [List.get?_cons_succ] at hr
          exact ih m hfi j' (by omega) r hr

/-! ### Behaviour of the deallocation primitive under `matchByPodRef` -/

theorem IterateForDeallocation_of_none {l : List IPReservation} {p : String}
    (h : firstMatchIdx p l = none) :
    IterateForDeallocation l p matchByPodRef =
      Except.error ("did not find a reserved IP for " ++ p) := by
  rw [IterateForDeallocation, matchByPodRef_eq, h]
  simp

theorem IterateForDeallocation_of_some {l : List IPReservation} {p : String} {i : Nat}
    {r : IPReservation} (h : firstMatchIdx p l = some i) (hr : l.get? i = some r) :
    IterateForDeallocation l p matchByPodRef = Except.ok (l.eraseIdx i, r) := by
  rw [IterateForDeallocation, matchByPodRef_eq, h]
  simp only [Option.elim_some, Int.toNat_ofNat]
  rw [if_pos (show 0 ≤ Int.ofNat i by exact Int.ofNat_nonneg i)]
  show (match l.get? i with
    | some removed => Except.ok (l.eraseIdx i, removed)
    | none => Except.error ("did not find a reserved IP for " ++ p)) =
      Except.ok (l.eraseIdx i, r)
  rw [hr]

theorem IterateForDeallocation_hit {a : IPReservation} {t : List IPReservation} {p : String}
    (h : (a.podRef == p) = true) :
    IterateForDeallocation (a :: t) p matchByPodRef = Except.ok (t, a) := by
  have hfi : firstMatchIdx p (a :: t) = some 0 := by simp [firstMatchIdx, h]
  exact IterateForDeallocation_of_some hfi rfl

theorem IterateForDeallocation_skip {a : IPReservation} {t : List IPReservation} {p : String}
    (h : (a.podRef == p) = false) :
    IterateForDeallocation (a :: t) p matchByPodRef =
      (IterateForDeallocation t p matchByPodRef).map (fun x => (a :: x.1, x.2)) := by
  cases hfi : firstMatchIdx p t with
  | none =>
    have hfi' : firstMatchIdx p (a :: t) = none := by
      simp [firstMatchIdx, h, hfi]
    rw [IterateForDeallocation_of_none hfi', IterateForDeallocation_of_none hfi]
    rfl
  | some i =>
    have hfi' : firstMatchIdx p (a :: t) = some (i + 1) := by
      simp [firstMatchIdx, h, hfi]
    obtain ⟨r, hr, _⟩ := firstMatchIdx_get? p t i hfi
    rw [IterateForDeallocation_of_some hfi hr,
      IterateForDeallocation_of_some hfi' (show (a :: t).get? (i + 1) = some r from hr)]
    rfl

/-! ### The per-pool deallocation loop removes exactly the orphans -/

theorem deallocAll_skip {a : IPReservation} (refs : List String) (t : List IPReservation)
    (h : ∀ q ∈ refs, (a.podRef == q) = false) :
    deallocAll refs (a :: t) = (deallocAll refs t).map (fun l => a :: l) := by
  induction refs generalizing t with
  | nil => rfl
  | cons q rest ih =>
    have hq : (a.podRef == q) = false := h q (List.mem_cons_self q rest)
    rw [deallocAll, deallocAll, IterateForDeallocation_skip hq]
    cases hit : IterateForDeallocation t q matchByPodRef with
    | error e => rfl
    | ok x => exact ih x.1 (fun q' hq' => h q' (List.mem_cons_of_mem _ hq'))

theorem isOrphan_congr (live : List String) {a b : IPReservation}
    (h : a.podRef = b.podRef) : isOrphan live a = isOrphan live b := by
  simp [isOrphan, h]

theorem deallocAll_filter (live : List String) :
    ∀ l : List IPReservation,
      deallocAll ((l.filter (isOrphan live)).map (fun a => a.podRef)) l =
        Except.ok (l.filter (fun a => !isOrphan live a)) := by
  intro l
  induction l with
  | nil => rfl
  | cons a t ih =>
    by_cases ho : isOrphan live a = true
    · rw [List.filter_cons_of_pos ho, List.map_cons, deallocAll,
        IterateForDeallocation_hit (beq_self_eq_true a.podRef)]
      show deallocAll ((t.filter (isOrphan live)).map (fun a => a.podRef)) t =
        Except.ok ((a :: t).filter (fun a => !isOrphan live a))
      rw [ih, List.filter_cons_of_neg (by simp [ho])]
    · rw [Bool.not_eq_true] at ho
      have hrefs : ∀ q ∈ (t.filter (isOrphan live)).map (fun a => a.podRef),
          (a.podRef == q) = false := by
        intro q hq
        obtain ⟨b, hb, hbq⟩ := List.mem_map.1 hq
        have hbo : isOrphan live b = true := (List.mem_filter.1 hb).2
        by_contra hne
        rw [Bool.not_eq_false, beq_iff_eq] at hne
        rw [isOrphan_congr live (hbq ▸ hne), hbo] at ho
        cases ho
      rw [List.filter_cons_of_neg (by simp [ho]), deallocAll_skip _ t hrefs, ih,
        List.filter_cons_of_pos (by simp [ho])]
      rfl

/-! ### The removal report computation -/

theorem computeCleanedUpIPs_subset_not (q : IPReservation → Bool) (l : List IPReservation)
    {r : IPReservation} (h : r ∈ computeCleanedUpIPs l (l.filter q)) :
    r ∈ l ∧ q r = false := by
  rw [computeCleanedUpIPs] at h
  have h1 := List.mem_filter.1 h
  refine ⟨h1.1, ?_⟩
  by_contra hq
  rw [Bool.not_eq_false] at hq
  have hmem : r ∈ l.filter q := List.mem_filter.2 ⟨h1.1, hq⟩
  have hany : ((l.filter q).any (fun n => n.ip == r.ip)) = true :=
    List.any_eq_true.2 ⟨r, hmem, beq_self_eq_true r.ip⟩
  have h2 := h1.2
  rw [hany] at h2
  exact absurd h2 (by decide)

theorem computeCleanedUpIPs_filter (q : IPReservation → Bool) (l : List IPReservation)
    (hnd : (l.map (fun r => r.ip)).Nodup) :
    computeCleanedUpIPs l (l.filter q) = l.filter (fun a => !q a) := by
  rw [computeCleanedUpIPs]
  apply List.filter_congr
  intro r hr
  by_cases hq : q r = true
  · have hmem : r ∈ l.filter q := List.mem_filter.2 ⟨hr, hq⟩
    have hany : ((l.filter q).any (fun n => n.ip == r.ip)) = true :=
      List.any_eq_true.2 ⟨r, hmem, beq_self_eq_true r.ip⟩
    rw [hany, hq]
  · rw [Bool.not_eq_true] at hq
    have hany : ((l.filter q).any (fun n => n.ip == r.ip)) = false := by
      by_contra hany
      rw [Bool.not_eq_false] at hany
      obtain ⟨n, hn, hnip⟩ := List.any_eq_true.1 hany
      have hnl : n ∈ l := (List.mem_filter.1 hn).1
      have hnq : q n = true := (List.mem_filter.1 hn).2
      have hnr : n = r := List.inj_on_of_nodup_map hnd hnl hr (beq_iff_eq.1 hnip)
      rw [hnr, hq] at hnq
      cases hnq
    rw [hany, hq]

/-! ### Structure of the orphan detector's output -/

theorem findOrphanedIPsPerPool_cons_pos {live : List String} {P : Pool} {rest : List Pool}
    (hc : 0 < (P.allocations.filter (isOrphan live)).length) :
    findOrphanedIPsPerPool live (P :: rest) =
      ⟨P, P.allocations.filter (isOrphan live)⟩ :: findOrphanedIPsPerPool live rest := by
  rw [findOrphanedIPsPerPool, findOrphanedIPsPerPool]
  exact List.filterMap_cons_some
    (show (if 0 < (P.allocations.filter (isOrphan live)).length then
        some (⟨P, P.allocations.filter (isOrphan live)⟩ : OrphanedIPReservations)
      else none) = some ⟨P, P.allocations.filter (isOrphan live)⟩ from if_pos hc)

theorem findOrphanedIPsPerPool_cons_neg {live : List String} {P : Pool} {rest : List Pool}
    (hc : ¬0 < (P.allocations.filter (isOrphan live)).length) :
    findOrphanedIPsPerPool live (P :: rest) = findOrphanedIPsPerPool live rest := by
  rw [findOrphanedIPsPerPool, findOrphanedIPsPerPool]
  exact List.filterMap_cons_none
    (show (if 0 < (P.allocations.filter (isOrphan live)).length then
        some (⟨P, P.allocations.filter (isOrphan live)⟩ : OrphanedIPReservations)
      else none) = none from if_neg hc)

theorem mem_findOrphanedIPsPerPool {live : List String} {pools : List Pool}
    {o : OrphanedIPReservations} (h : o ∈ findOrphanedIPsPerPool live pools) :
    o.pool ∈ pools ∧ o.allocations = o.pool.allocations.filter (isOrphan live) ∧
      0 < o.allocations.length := by
  induction pools with
  | nil => cases h
  | cons P rest ih =>
    by_cases hc : 0 < (P.allocations.filter (isOrphan live)).length
    · rw [findOrphanedIPsPerPool_cons_pos hc] at h
      rcases List.mem_cons.1 h with hP | hP
      · subst hP
        exact ⟨List.mem_cons_self P rest, rfl, hc⟩
      · obtain ⟨h1, h2, h3⟩ := ih hP
        exact ⟨List.mem_cons_of_mem _ h1, h2, h3⟩
    · rw [findOrphanedIPsPerPool_cons_neg hc] at h
      obtain ⟨h1, h2, h3⟩ := ih h
      exact ⟨List.mem_cons_of_mem _ h1, h2, h3⟩

theorem findOrphanedIPsPerPool_eq (live : List String) :
    ∀ pools : List Pool,
      findOrphanedIPsPerPool live pools =
        (pools.filter
            (fun P => decide (0 < (P.allocations.filter (isOrphan live)).length))).map
          (fun P => ⟨P, P.allocations.filter (isOrphan live)⟩) := by
  intro pools
  induction pools with
  | nil => rfl
  | cons P rest ih =>
    by_cases hc : 0 < (P.allocations.filter (isOrphan live)).length
    · rw [findOrphanedIPsPerPool_cons_pos hc, List.filter_cons_of_pos (by simpa using hc),
        List.map_cons, ih]
    · rw [findOrphanedIPsPerPool_cons_neg hc, List.filter_cons_of_neg (by simpa using hc), ih]

/-! ### The driver on a store that accepts every write -/

theorem ReconcileIPPools_allOk (live : List String) :
    ∀ orphans : List OrphanedIPReservations,
      (∀ o ∈ orphans, o.allocations = o.pool.allocations.filter (isOrphan live)) →
      ReconcileIPPools alwaysOk orphans =
        (orphans.map (fun o =>
           ⟨o.pool, o.pool.allocations.filter (fun a => !isOrphan live a)⟩),
         (orphans.map (fun o => computeCleanedUpIPs o.pool.allocations
            (o.pool.allocations.filter (fun a => !isOrphan live a)))).flatten,
         none) := by
  intro orphans
  induction orphans with
  | nil => intro _; rfl
  | cons o rest ih =>
    intro hwf
    have ho : o.allocations = o.pool.allocations.filter (isOrphan live) :=
      hwf o (List.mem_cons_self o rest)
    have hdealloc : deallocAll (findOutPodRefsToDeallocateIPsFrom o) o.pool.allocations =
        Except.ok (o.pool.allocations.filter (fun a => !isOrphan live a)) := by
      rw [findOutPodRefsToDeallocateIPsFrom, ho]
      exact deallocAll_filter live o.pool.allocations
    have ihr := ih (fun o' ho' => hwf o' (List.mem_cons_of_mem _ ho'))
    simp only [ReconcileIPPools, hdealloc, ihr, alwaysOk, if_true, List.map_cons,
      List.flatten_cons]

theorem reconcile_allOk (live : List String) (pools : List Pool) :
    reconcile alwaysOk live pools =
      ((findOrphanedIPsPerPool live pools).map (fun o =>
         ⟨o.pool, o.pool.allocations.filter (fun a => !isOrphan live a)⟩),
       ((findOrphanedIPsPerPool live pools).map (fun o =>
         computeCleanedUpIPs o.pool.allocations
           (o.pool.allocations.filter (fun a => !isOrphan live a)))).flatten,
       none) := by
  rw [reconcile]
  exact ReconcileIPPools_allOk live _ (fun o ho => (mem_findOrphanedIPsPerPool ho).2.1)

theorem flatten_orphans (live : List String) :
    ∀ pools : List Pool,
      ((findOrphanedIPsPerPool live pools).map (fun o =>
          o.pool.allocations.filter (isOrphan live))).flatten =
        (pools.map (fun P => P.allocations.filter (isOrphan live))).flatten := by
  intro pools
  induction pools with
  | nil => rfl
  | cons P rest ih =>
    by_cases hc : 0 < (P.allocations.filter (isOrphan live)).length
    · rw [findOrphanedIPsPerPool_cons_pos hc, List.map_cons, List.flatten_cons,
        List.map_cons, List.flatten_cons, ih]
    · have hnil : P.allocations.filter (isOrphan live) = [] :=
        List.length_eq_zero.1 (by omega)
      rw [findOrphanedIPsPerPool_cons_neg hc, List.map_cons, List.flatten_cons, hnil,
        List.nil_append, ih]

theorem length_filter_not (p : IPReservation → Bool) :
    ∀ l : List IPReservation,
      (l.filter (fun a => !p a)).length = l.length - (l.filter p).length := by
  intro l
  induction l with
  | nil => rfl
  | cons a t ih =>
    have hle := List.length_filter_le p t
    by_cases hp : p a = true
    · rw [List.filter_cons_of_pos hp, List.filter_cons_of_neg (by simp [hp])]
      simp only [List.length_cons]
      omega
    · rw [Bool.not_eq_true] at hp
      rw [List.filter_cons_of_pos (by simp [hp]), List.filter_cons_of_neg (by simp [hp])]
      simp only [List.length_cons]
      omega

/-! ## Claim theorems -/

/-- C1: the reservations removed by a reconciliation pass — as committed to
the store and as reported in the removal output — are exactly those whose
owner ref is nonempty and absent from the live set captured at the start of
the pass: each orphaned pool is committed with exactly its non-orphaned
reservations, and the removal report is the concatenation, over all pools, of
their orphaned reservations.  (Addresses within a pool are unique, as the
data model requires.) -/
theorem reconcile_exact_set_difference (live : List String) (pools : List Pool)
    (hnd : ∀ P ∈ pools, (P.allocations.map (fun r => r.ip)).Nodup) :
    reconcile alwaysOk live pools =
      ((findOrphanedIPsPerPool live pools).map (fun o =>
         ⟨o.pool, o.pool.allocations.filter (fun a => !isOrphan live a)⟩),
       (pools.map (fun P => P.allocations.filter (isOrphan live))).flatten,
       none) := by
  have hclean : ((findOrphanedIPsPerPool live pools).map (fun o =>
      computeCleanedUpIPs o.pool.allocations
        (o.pool.allocations.filter (fun a => !isOrphan live a)))).flatten =
      (pools.map (fun P => P.allocations.filter (isOrphan live))).flatten := by
    rw [← flatten_orphans live pools]
    congr 1
    apply List.map_congr_left
    intro o ho
    obtain ⟨hPmem, _, _⟩ := mem_findOrphanedIPsPerPool ho
    rw [computeCleanedUpIPs_filter _ _ (hnd o.pool hPmem)]
    apply List.filter_congr
    intro a _
    exact Bool.not_not (isOrphan live a)
  rw [reconcile_allOk, hclean]

/-- C1 witness (Scenario A): pool `[(10.0.0.1, podA), (10.0.0.2, podB),
(10.0.0.3, podC)]`, live set `(podA, podC)`: the committed list keeps podA and
podC and the removal report is exactly the podB reservation. -/
theorem reconcile_exact_set_difference_witness :
    reconcile alwaysOk ["podA", "podC"]
      [⟨1, [⟨"10.0.0.1", "podA"⟩, ⟨"10.0.0.2", "podB"⟩, ⟨"10.0.0.3", "podC"⟩]⟩] =
      ([⟨⟨1, [⟨"10.0.0.1", "podA"⟩, ⟨"10.0.0.2", "podB"⟩, ⟨"10.0.0.3", "podC"⟩]⟩,
          [⟨"10.0.0.1", "podA"⟩, ⟨"10.0.0.3", "podC"⟩]⟩],
       [⟨"10.0.0.2", "podB"⟩], none) :=
  (reconcile_exact_set_difference ["podA", "podC"]
      [⟨1, [⟨"10.0.0.1", "podA"⟩, ⟨"10.0.0.2", "podB"⟩, ⟨"10.0.0.3", "podC"⟩]⟩]
      (by decide)).trans (by decide)

/-- C2: a reservation whose owner ref is in the live set captured at the start
of the pass is never removed: it remains, with the same address and owner, in
every list committed via `Pool.Update`, and it never appears in the removal
output. -/
theorem reconcile_preserves_live_owners (live : List String) (pools : List Pool) :
    (∀ c ∈ (reconcile alwaysOk live pools).1, ∀ r ∈ c.pool.allocations,
        isPodAlive live r.podRef = true → r ∈ c.newAllocations) ∧
    (∀ r ∈ (reconcile alwaysOk live pools).2.1, isPodAlive live r.podRef = false) := by
  rw [reconcile_allOk]
  constructor
  · intro c hc r hr halive
    obtain ⟨o, _, hco⟩ := List.mem_map.1 hc
    subst hco
    have horphan : isOrphan live r = false := by simp [isOrphan, halive]
    exact List.mem_filter.2 ⟨hr, by rw [horphan]; rfl⟩
  · intro r hrc
    obtain ⟨l, hl, hrl⟩ := List.mem_flatten.1 hrc
    obtain ⟨o, _, hlo⟩ := List.mem_map.1 hl
    subst hlo
    have hkeep := (computeCleanedUpIPs_subset_not _ _ hrl).2
    rw [Bool.not_eq_false'] at hkeep
    rw [isOrphan] at hkeep
    have h2 := (Bool.and_eq_true_iff.1 hkeep).2
    rw [Bool.not_eq_true'] at h2
    exact h2

/-- C2 witness: in Scenario A the live reservation `(10.0.0.1, podA)` is
present in the committed list of the only updated pool. -/
theorem reconcile_preserves_live_owners_witness :
    (⟨"10.0.0.1", "podA"⟩ : IPReservation) ∈
      (UpdateCall.mk
        ⟨1, [⟨"10.0.0.1", "podA"⟩, ⟨"10.0.0.2", "podB"⟩, ⟨"10.0.0.3", "podC"⟩]⟩
        [⟨"10.0.0.1", "podA"⟩, ⟨"10.0.0.3", "podC"⟩]).newAllocations :=
  (reconcile_preserves_live_owners ["podA", "podC"]
      [⟨1, [⟨"10.0.0.1", "podA"⟩, ⟨"10.0.0.2", "podB"⟩, ⟨"10.0.0.3", "podC"⟩]⟩]).1
    ⟨⟨1, [⟨"10.0.0.1", "podA"⟩, ⟨"10.0.0.2", "podB"⟩, ⟨"10.0.0.3", "podC"⟩]⟩,
      [⟨"10.0.0.1", "podA"⟩, ⟨"10.0.0.3", "podC"⟩]⟩ (by decide)
    ⟨"10.0.0.1", "podA"⟩ (by decide) (by decide)

/-- C3: a reservation with an empty owner ref is never classified as
orphaned, stays in every committed list, and never appears in the removal
output, whatever the live set (including the empty one). -/
theorem reconcile_skips_empty_ownerRef (live : List String) (pools : List Pool) :
    (∀ o ∈ findOrphanedIPsPerPool live pools, ∀ r ∈ o.allocations, r.podRef ≠ "") ∧
    (∀ c ∈ (reconcile alwaysOk live pools).1, ∀ r ∈ c.pool.allocations,
        r.podRef = "" → r ∈ c.newAllocations) ∧
    (∀ r ∈ (reconcile alwaysOk live pools).2.1, r.podRef ≠ "") := by
  refine ⟨?_, ?_, ?_⟩
  · intro o ho r hr
    obtain ⟨_, halloc, _⟩ := mem_findOrphanedIPsPerPool ho
    rw [halloc] at hr
    have horphan := (List.mem_filter.1 hr).2
    rw [isOrphan] at horphan
    have := (Bool.and_eq_true_iff.1 horphan).1
    exact bne_iff_ne.1 this
  · rw [reconcile_allOk]
    intro c hc r hr hempty
    obtain ⟨o, _, hco⟩ := List.mem_map.1 hc
    subst hco
    have horphan : isOrphan live r = false := by simp [isOrphan, hempty]
    exact List.mem_filter.2 ⟨hr, by rw [horphan]; rfl⟩
  · rw [reconcile_allOk]
    intro r hrc
    obtain ⟨l, hl, hrl⟩ := List.mem_flatten.1 hrc
    obtain ⟨o, _, hlo⟩ := List.mem_map.1 hl
    subst hlo
    have hkeep := (computeCleanedUpIPs_subset_not _ _ hrl).2
    rw [Bool.not_eq_false'] at hkeep
    rw [isOrphan] at hkeep
    exact bne_iff_ne.1 (Bool.and_eq_true_iff.1 hkeep).1

/-- C3 witness (Scenario B plus one orphan to force a commit): with the empty
live set, the unattributed reservation `(10.0.0.5, "")` stays in the
committed list of its pool. -/
theorem reconcile_skips_empty_ownerRef_witness :
    (⟨"10.0.0.5", ""⟩ : IPReservation) ∈
      (UpdateCall.mk ⟨1, [⟨"10.0.0.5", ""⟩, ⟨"10.0.0.6", "podX"⟩]⟩
        [⟨"10.0.0.5", ""⟩]).newAllocations :=
  (reconcile_skips_empty_ownerRef []
      [⟨1, [⟨"10.0.0.5", ""⟩, ⟨"10.0.0.6", "podX"⟩]⟩]).2.1
    ⟨⟨1, [⟨"10.0.0.5", ""⟩, ⟨"10.0.0.6", "podX"⟩]⟩, [⟨"10.0.0.5", ""⟩]⟩ (by decide)
    ⟨"10.0.0.5", ""⟩ (by decide) (by decide)

/-- C4: the update calls of a pass are exactly one per pool that has an
orphan, in store order, committing that pool's non-orphaned reservations; a
pool without orphans is never written, and every committed list's length is
the original length minus the number of orphaned reservations of that
pool. -/
theorem single_commit_per_pool (live : List String) (pools : List Pool) :
    (reconcile alwaysOk live pools).1 =
      (pools.filter (fun P =>
          decide (0 < (P.allocations.filter (isOrphan live)).length))).map
        (fun P => ⟨P, P.allocations.filter (fun a => !isOrphan live a)⟩) ∧
    ∀ c ∈ (reconcile alwaysOk live pools).1,
      c.newAllocations.length =
        c.pool.allocations.length - (c.pool.allocations.filter (isOrphan live)).length := by
  constructor
  · rw [reconcile_allOk]
    show ((findOrphanedIPsPerPool live pools).map (fun o =>
        (⟨o.pool, o.pool.allocations.filter (fun a => !isOrphan live a)⟩ : UpdateCall))) = _
    rw [findOrphanedIPsPerPool_eq, List.map_map]
    rfl
  · rw [reconcile_allOk]
    intro c hc
    obtain ⟨o, _, hco⟩ := List.mem_map.1 hc
    subst hco
    exact length_filter_not (isOrphan live) o.pool.allocations

/-- C4 witness (Scenario C): with two pools of which only the second has an
orphan, exactly one update call is made — for the orphaned pool — and its
committed list has length `2 - 1`. -/
theorem single_commit_per_pool_witness :
    (reconcile alwaysOk ["podA"]
        [⟨1, [⟨"10.0.0.1", "podA"⟩]⟩,
         ⟨2, [⟨"10.0.0.2", "podB"⟩, ⟨"10.0.0.3", "podA"⟩]⟩]).1 =
      [⟨⟨2, [⟨"10.0.0.2", "podB"⟩, ⟨"10.0.0.3", "podA"⟩]⟩, [⟨"10.0.0.3", "podA"⟩]⟩] ∧
    (UpdateCall.mk ⟨2, [⟨"10.0.0.2", "podB"⟩, ⟨"10.0.0.3", "podA"⟩]⟩
        [⟨"10.0.0.3", "podA"⟩]).newAllocations.length = 2 - 1 :=
  ⟨((single_commit_per_pool ["podA"]
      [⟨1, [⟨"10.0.0.1", "podA"⟩]⟩,
       ⟨2, [⟨"10.0.0.2", "podB"⟩, ⟨"10.0.0.3", "podA"⟩]⟩]).1).trans (by decide),
   ((single_commit_per_pool ["podA"]
      [⟨1, [⟨"10.0.0.1", "podA"⟩]⟩,
       ⟨2, [⟨"10.0.0.2", "podB"⟩, ⟨"10.0.0.3", "podA"⟩]⟩]).2
      ⟨⟨2, [⟨"10.0.0.2", "podB"⟩, ⟨"10.0.0.3", "podA"⟩]⟩,
        [⟨"10.0.0.3", "podA"⟩]⟩ (by decide)).trans (by decide)⟩

/-! ### Helpers for the idempotence claim -/

theorem reconcile_allOk_calls (live : List String) (pools : List Pool) :
    (reconcile alwaysOk live pools).1 =
      (pools.filter (fun P =>
          decide (0 < (P.allocations.filter (isOrphan live)).length))).map
        (fun P => ⟨P, P.allocations.filter (fun a => !isOrphan live a)⟩) := by
  rw [reconcile_allOk]
  show ((findOrphanedIPsPerPool live pools).map (fun o =>
      (⟨o.pool, o.pool.allocations.filter (fun a => !isOrphan live a)⟩ : UpdateCall))) = _
  rw [findOrphanedIPsPerPool_eq, List.map_map]
  rfl

theorem filter_keep_no_orphans (live : List String) (l : List IPReservation) :
    (l.filter (fun a => !isOrphan live a)).filter (isOrphan live) = [] := by
  rw [List.filter_filter]
  exact List.filter_eq_nil_iff.2 (fun a _ => by simp)

theorem findOrphanedIPsPerPool_eq_nil {live : List String} {pools : List Pool}
    (h : ∀ P ∈ pools, P.allocations.filter (isOrphan live) = []) :
    findOrphanedIPsPerPool live pools = [] := by
  rw [findOrphanedIPsPerPool_eq]
  have hfil : pools.filter (fun P =>
      decide (0 < (P.allocations.filter (isOrphan live)).length)) = [] :=
    List.filter_eq_nil_iff.2 (fun P hP => by simp [h P hP])
  rw [hfil, List.map_nil]

/-- C5: immediately after a successful pass (a store that accepted every
write), running the pass again with the same live set on the resulting store
— each written pool holding its committed list, unwritten pools unchanged —
performs no update call and returns the empty removal list with no error. -/
theorem reconcile_second_pass_empty (updOk2 : Pool → List IPReservation → Bool)
    (live : List String) (pools : List Pool) :
    (reconcile alwaysOk live pools).2.2 = none ∧
    reconcile updOk2 live
        (applyUpdates pools (reconcile alwaysOk live pools).1) = ([], [], none) := by
  constructor
  · rw [reconcile_allOk]
  · have hclean : ∀ Q ∈ applyUpdates pools (reconcile alwaysOk live pools).1,
        Q.allocations.filter (isOrphan live) = [] := by
      intro Q hQmem
      rw [applyUpdates] at hQmem
      obtain ⟨P, hP, hPQ⟩ := List.mem_map.1 hQmem
      have hPQ' : (match ((reconcile alwaysOk live pools).1).find?
            (fun c => c.pool == P) with
          | some c => (⟨P.id, c.newAllocations⟩ : Pool)
          | none => P) = Q := hPQ
      cases hfind : ((reconcile alwaysOk live pools).1).find? (fun c => c.pool == P) with
      | some c =>
        rw [hfind] at hPQ'
        have hcT : c ∈ (reconcile alwaysOk live pools).1 :=
          List.mem_of_find?_eq_some hfind
        rw [reconcile_allOk_calls] at hcT
        obtain ⟨R, _, hRc⟩ := List.mem_map.1 hcT
        have hnew : c.newAllocations =
            R.allocations.filter (fun a => !isOrphan live a) := by
          rw [← hRc]
        rw [← hPQ']
        show (⟨P.id, c.newAllocations⟩ : Pool).allocations.filter (isOrphan live) = []
        rw [hnew]
        exact filter_keep_no_orphans live R.allocations
      | none =>
        rw [hfind] at hPQ'
        by_contra hne
        have hlen : 0 < (P.allocations.filter (isOrphan live)).length := by
          cases hF : P.allocations.filter (isOrphan live) with
          | nil => exact (hne (by rw [← hPQ']; exact hF)).elim
          | cons x xs => simp
        have hmemF : P ∈ pools.filter (fun P =>
            decide (0 < (P.allocations.filter (isOrphan live)).length)) :=
          List.mem_filter.2 ⟨hP, by simpa using hlen⟩
        have hmemT : (⟨P, P.allocations.filter (fun a => !isOrphan live a)⟩ :
            UpdateCall) ∈ (reconcile alwaysOk live pools).1 := by
          rw [reconcile_allOk_calls]
          exact List.mem_map_of_mem _ hmemF
        have hnone := List.find?_eq_none.1 hfind _ hmemT
        exact hnone (by simp)
    rw [reconcile, findOrphanedIPsPerPool_eq_nil hclean]
    rfl

/-! ### Failure injection -/

theorem ReconcileIPPools_update_fail (live : List String)
    (updOk : Pool → List IPReservation → Bool) :
    ∀ (pre : List OrphanedIPReservations) (o : OrphanedIPReservations)
      (post : List OrphanedIPReservations),
      (∀ e ∈ pre ++ o :: post,
        e.allocations = e.pool.allocations.filter (isOrphan live)) →
      (∀ e ∈ pre,
        updOk e.pool (e.pool.allocations.filter (fun a => !isOrphan live a)) = true) →
      updOk o.pool (o.pool.allocations.filter (fun a => !isOrphan live a)) = false →
      ReconcileIPPools updOk (pre ++ o :: post) =
        (pre.map (fun e =>
           ⟨e.pool, e.pool.allocations.filter (fun a => !isOrphan live a)⟩),
         [], some ReconcileError.updateFailed) := by
  intro pre
  induction pre with
  | nil =>
    intro o post hwf hpre hfail
    have ho := hwf o (by simp)
    have hdealloc : deallocAll (findOutPodRefsToDeallocateIPsFrom o)
        o.pool.allocations =
        Except.ok (o.pool.allocations.filter (fun a => !isOrphan live a)) := by
      rw [findOutPodRefsToDeallocateIPsFrom, ho]
      exact deallocAll_filter live o.pool.allocations
    simp only [List.nil_append, ReconcileIPPools, hdealloc, hfail,
      Bool.false_eq_true, if_false, List.map_nil]
  | cons e pre' ih =>
    intro o post hwf hpre hfail
    have he := hwf e (by simp)
    have hdealloc : deallocAll (findOutPodRefsToDeallocateIPsFrom e)
        e.pool.allocations =
        Except.ok (e.pool.allocations.filter (fun a => !isOrphan live a)) := by
      rw [findOutPodRefsToDeallocateIPsFrom, he]
      exact deallocAll_filter live e.pool.allocations
    have hupd := hpre e (List.mem_cons_self e pre')
    have ihr := ih o post
      (fun x hx => hwf x (List.mem_cons_of_mem _ hx))
      (fun x hx => hpre x (List.mem_cons_of_mem _ hx))
      hfail
    simp only [List.cons_append, ReconcileIPPools, hdealloc, hupd, if_true,
      List.map_cons]
    rw [show ReconcileIPPools updOk (pre'.append (o :: post)) =
        (pre'.map (fun x =>
           (⟨x.pool, x.pool.allocations.filter (fun a => !isOrphan live a)⟩ :
             UpdateCall)),
         [], some ReconcileError.updateFailed) from ihr]

/-- C6: if `Pool.Update` fails for some pool of the pass, the pass aborts at
that pool and surfaces the error; pools whose update already succeeded
earlier in the same pass remain committed (their update calls stand, with no
rollback), and the returned removal report is empty, so no reservation of
the failing pool is reported. -/
theorem update_failure_aborts_pass (updOk : Pool → List IPReservation → Bool)
    (live : List String) (pools : List Pool)
    (pre : List OrphanedIPReservations) (o : OrphanedIPReservations)
    (post : List OrphanedIPReservations)
    (hsplit : findOrphanedIPsPerPool live pools = pre ++ o :: post)
    (hpre : ∀ e ∈ pre,
      updOk e.pool (e.pool.allocations.filter (fun a => !isOrphan live a)) = true)
    (hfail : updOk o.pool
      (o.pool.allocations.filter (fun a => !isOrphan live a)) = false) :
    reconcile updOk live pools =
      (pre.map (fun e =>
         ⟨e.pool, e.pool.allocations.filter (fun a => !isOrphan live a)⟩),
       [], some ReconcileError.updateFailed) := by
  rw [reconcile, hsplit]
  exact ReconcileIPPools_update_fail live updOk pre o post
    (fun e he => (mem_findOrphanedIPsPerPool (hsplit.symm ▸ he)).2.1) hpre hfail

/-- C6 witness: two orphaned pools, a store that rejects the write to the
second pool: the first stays committed, the error surfaces, and the removal
report is empty. -/
theorem update_failure_aborts_pass_witness :
    reconcile (fun P _ => P.id != 2) []
        [⟨1, [⟨"10.0.0.1", "podA"⟩]⟩, ⟨2, [⟨"10.0.0.2", "podB"⟩]⟩] =
      ([⟨⟨1, [⟨"10.0.0.1", "podA"⟩]⟩, []⟩], [],
       some ReconcileError.updateFailed) :=
  (update_failure_aborts_pass (fun P _ => P.id != 2) []
      [⟨1, [⟨"10.0.0.1", "podA"⟩]⟩, ⟨2, [⟨"10.0.0.2", "podB"⟩]⟩]
      [⟨⟨1, [⟨"10.0.0.1", "podA"⟩]⟩, [⟨"10.0.0.1", "podA"⟩]⟩]
      ⟨⟨2, [⟨"10.0.0.2", "podB"⟩]⟩, [⟨"10.0.0.2", "podB"⟩]⟩ []
      (by decide) (by decide) (by decide)).trans (by decide)

/-- C7: if the deallocation primitive reports not-found for an orphan
identified in phase 1 (possible when the pool's stored list changed between
the phases), the pass surfaces that error to the caller and the affected
pool's `Pool.Update` is never invoked: no update call is recorded for it. -/
theorem dealloc_not_found_aborts_pool (updOk : Pool → List IPReservation → Bool)
    (o : OrphanedIPReservations) (rest : List OrphanedIPReservations) (e : String)
    (hfail : deallocAll (findOutPodRefsToDeallocateIPsFrom o) o.pool.allocations =
      Except.error e) :
    ReconcileIPPools updOk (o :: rest) =
      ([], [], some (ReconcileError.deallocFailed e)) := by
  simp only [ReconcileIPPools, hfail]

/-- C7 witness: phase 1 recorded an orphan owned by `podZ`, but the pool's
stored list is now empty, so the primitive reports not-found: the error
surfaces and no update call is made. -/
theorem dealloc_not_found_aborts_pool_witness :
    ReconcileIPPools alwaysOk [⟨⟨1, []⟩, [⟨"10.0.0.9", "podZ"⟩]⟩] =
      ([], [],
       some (ReconcileError.deallocFailed "did not find a reserved IP for podZ")) :=
  dealloc_not_found_aborts_pool alwaysOk ⟨⟨1, []⟩, [⟨"10.0.0.9", "podZ"⟩]⟩ []
    "did not find a reserved IP for podZ" rfl

/-- C8: `matchByPodRef` returns the index of the first reservation whose
owner equals the given pod ref (exact string match), and the sentinel `-1`
when no reservation has that owner. -/
theorem matchByPodRef_first_match (reservations : List IPReservation) (podRef : String) :
    (matchByPodRef reservations podRef = -1 ↔
      ∀ r ∈ reservations, r.podRef ≠ podRef) ∧
    (∀ i : Nat, matchByPodRef reservations podRef = Int.ofNat i →
      ∃ h : i < reservations.length,
        (reservations.get ⟨i, h⟩).podRef = podRef ∧
        ∀ j : Nat, ∀ hj : j < i,
          (reservations.get ⟨j, Nat.lt_trans hj h⟩).podRef ≠ podRef) := by
  constructor
  · rw [matchByPodRef_eq]
    cases hfi : firstMatchIdx podRef reservations with
    | none =>
      simp only [Option.elim_none]
      constructor
      · intro _ r hr
        exact beq_eq_false_iff_ne.1 ((firstMatchIdx_none_iff podRef reservations).1 hfi r hr)
      · intro _; trivial
    | some i =>
      simp only [Option.elim_some]
      constructor
      · intro h
        have hnn : 0 ≤ Int.ofNat i := Int.ofNat_nonneg i
        rw [h] at hnn
        exact absurd hnn (by decide)
      · intro hall
        have : firstMatchIdx podRef reservations = none :=
          (firstMatchIdx_none_iff podRef reservations).2
            (fun r hr => beq_eq_false_iff_ne.2 (hall r hr))
        rw [this] at hfi
        cases hfi
  · intro i hi
    rw [matchByPodRef_eq] at hi
    cases hfi : firstMatchIdx podRef reservations with
    | none =>
      rw [hfi] at hi
      exact absurd hi (by simp)
    | some m =>
      rw [hfi] at hi
      have hi' : Int.ofNat m = Int.ofNat i := hi
      have him : m = i := Int.ofNat.inj hi'
      subst him
      obtain ⟨r, hr, hrp⟩ := firstMatchIdx_get? podRef reservations m hfi
      obtain ⟨hlt, hget⟩ := List.get?_eq_some.1 hr
      refine ⟨hlt, by rw [hget]; exact beq_iff_eq.1 hrp, ?_⟩
      intro j hj
      have hjlt : j < reservations.length := Nat.lt_trans hj hlt
      have hbefore := firstMatchIdx_before podRef reservations m hfi j hj
        (reservations.get ⟨j, hjlt⟩) (List.get?_eq_get hjlt)
      exact beq_eq_false_iff_ne.1 hbefore

/-- C8 witness: in `[(10.0.0.1, podA), (10.0.0.2, podB)]` the match for
`podB` is at index 1 and every earlier entry has a different owner. -/
theorem matchByPodRef_first_match_witness :
    ∃ h : 1 < ([⟨"10.0.0.1", "podA"⟩, ⟨"10.0.0.2", "podB"⟩] :
        List IPReservation).length,
      (([⟨"10.0.0.1", "podA"⟩, ⟨"10.0.0.2", "podB"⟩] :
          List IPReservation).get ⟨1, h⟩).podRef = "podB" ∧
      ∀ j : Nat, ∀ hj : j < 1,
        (([⟨"10.0.0.1", "podA"⟩, ⟨"10.0.0.2", "podB"⟩] :
            List IPReservation).get ⟨j, Nat.lt_trans hj h⟩).podRef ≠ "podB" :=
  (matchByPodRef_first_match [⟨"10.0.0.1", "podA"⟩, ⟨"10.0.0.2", "podB"⟩]
      "podB").2 1 (by decide)

/-- C9: whenever the pass returns an error — a failed deallocation or a
rejected update — the removal list it returns is empty, as the Go returns
`nil`: removals already committed for earlier pools are not reported. -/
theorem error_returns_empty_removals (updOk : Pool → List IPReservation → Bool) :
    ∀ (orphanedIPs : List OrphanedIPReservations) (e : ReconcileError),
      (ReconcileIPPools updOk orphanedIPs).2.2 = some e →
      (ReconcileIPPools updOk orphanedIPs).2.1 = [] := by
  intro orphans
  induction orphans with
  | nil => intro e h; cases h
  | cons o rest ih =>
    intro e h
    simp only [ReconcileIPPools] at h ⊢
    cases hd : deallocAll (findOutPodRefsToDeallocateIPsFrom o)
        o.pool.allocations with
    | error e2 => simp only [hd]
    | ok cur =>
      simp only [hd] at h ⊢
      cases hupd : updOk o.pool cur with
      | false => simp only [hupd, Bool.false_eq_true, if_false]
      | true =>
        simp only [hupd, if_true] at h ⊢
        rcases hres : ReconcileIPPools updOk rest with ⟨calls, cleaned, err⟩
        rw [hres] at h
        cases err with
        | none => exact Option.noConfusion h
        | some e2 => rfl

/-- C9 witness: a store that rejects every write yields an error and the
empty removal list. -/
theorem error_returns_empty_removals_witness :
    (ReconcileIPPools (fun _ _ => false)
        [⟨⟨1, [⟨"10.0.0.7", "podY"⟩]⟩, [⟨"10.0.0.7", "podY"⟩]⟩]).2.1 = [] :=
  error_returns_empty_removals (fun _ _ => false)
    [⟨⟨1, [⟨"10.0.0.7", "podY"⟩]⟩, [⟨"10.0.0.7", "podY"⟩]⟩]
    ReconcileError.updateFailed (by decide)

/-- C10: the driver derives one deallocation target per orphaned reservation
(not per distinct owner): the target list is the orphaned allocations' pod
refs with multiplicity — an owner with `m` orphaned reservations appears `m`
times and the primitive is invoked once per occurrence — and after the
first-match removals no reservation owned by a nonempty dead ref remains in
the committed list. -/
theorem one_target_per_orphaned_reservation (live : List String) (P : Pool) :
    findOutPodRefsToDeallocateIPsFrom ⟨P, P.allocations.filter (isOrphan live)⟩ =
      (P.allocations.filter (isOrphan live)).map (fun a => a.podRef) ∧
    (∀ p : String,
      (((P.allocations.filter (isOrphan live)).map (fun a => a.podRef)).countP
          (fun q => q == p)) =
        P.allocations.countP (fun a => a.podRef == p && isOrphan live a)) ∧
    deallocAll ((P.allocations.filter (isOrphan live)).map (fun a => a.podRef))
        P.allocations =
      Except.ok (P.allocations.filter (fun a => !isOrphan live a)) ∧
    ∀ p : String, p ≠ "" → isPodAlive live p = false →
      (P.allocations.filter (fun a => !isOrphan live a)).countP
        (fun a => a.podRef == p) = 0 := by
  refine ⟨rfl, ?_, deallocAll_filter live P.allocations, ?_⟩
  · intro p
    rw [List.countP_map, List.countP_filter]
    rfl
  · intro p hp halive
    apply List.countP_eq_zero.2
    intro a ha
    have hkeep := (List.mem_filter.1 ha).2
    rw [Bool.not_eq_true'] at hkeep
    intro hap
    have hap' : a.podRef = p := beq_iff_eq.1 hap
    rw [isOrphan, hap', bne_iff_ne.2 hp, halive] at hkeep
    exact absurd hkeep (by decide)

/-- C10 witness: owner `podM` holds two orphaned reservations: it appears
twice in the target list and none of its reservations survive in the
committed list. -/
theorem one_target_per_orphaned_reservation_witness :
    ((((Pool.mk 1 [⟨"10.0.0.1", "podM"⟩, ⟨"10.0.0.2", "podM"⟩]).allocations.filter
          (isOrphan [])).map (fun a => a.podRef)).countP (fun q => q == "podM")) = 2 ∧
    (((Pool.mk 1 [⟨"10.0.0.1", "podM"⟩, ⟨"10.0.0.2", "podM"⟩]).allocations.filter
        (fun a => !isOrphan [] a)).countP (fun a => a.podRef == "podM")) = 0 :=
  ⟨((one_target_per_orphaned_reservation []
      (Pool.mk 1 [⟨"10.0.0.1", "podM"⟩, ⟨"10.0.0.2", "podM"⟩])).2.1 "podM").trans
      (by decide),
   (one_target_per_orphaned_reservation []
      (Pool.mk 1 [⟨"10.0.0.1", "podM"⟩, ⟨"10.0.0.2", "podM"⟩])).2.2.2 "podM"
      (by decide) (by decide)⟩

end Whereabouts
